import Mathlib

/-!
Verification of the EIATracker crediting core (src/app.py).

Python floats are modelled as exact rationals.  Python's round(x, n)
(round-half-to-even on the scaled value) is modelled by pyRound, and the
truthiness idiom «x or default» on optional numeric fields by pyOr.
-/

/-- Round-half-to-even of a rational to an integer, the tie-breaking rule of
Python's built-in round. -/
def pyRoundInt (y : ℚ) : ℤ :=
  if y - ⌊y⌋ < 1/2 then ⌊y⌋
  else if 1/2 < y - ⌊y⌋ then ⌊y⌋ + 1
  else if ⌊y⌋ % 2 = 0 then ⌊y⌋ else ⌊y⌋ + 1

/-- Model of Python round(x, ndigits) on exact rationals. -/
def pyRound (ndigits : ℕ) (x : ℚ) : ℚ :=
  (pyRoundInt (x * 10 ^ ndigits) : ℚ) / 10 ^ ndigits

/-- Model of the Python idiom «x or d» for an optional numeric x: the default
is used when x is absent or equal to 0 (0 is falsy). -/
def pyOr (x : Option ℚ) (d : ℚ) : ℚ :=
  match x with
  | none => d
  | some v => if v = 0 then d else v

theorem pyRoundInt_intCast (m : ℤ) : pyRoundInt (m : ℚ) = m := by
  unfold pyRoundInt
  rw [Int.floor_intCast]
  norm_num

theorem pyRoundInt_eq_zero {y : ℚ} (h1 : -(1/2) < y) (h2 : y < 1/2) :
    pyRoundInt y = 0 := by
  unfold pyRoundInt
  by_cases hy : 0 ≤ y
  · have hf : ⌊y⌋ = 0 := by
      rw [Int.floor_eq_iff]
      constructor
      · exact_mod_cast hy
      · push_cast; linarith
    rw [hf]
    push_cast
    split_ifs <;> first | rfl | omega | linarith
  · have hf : ⌊y⌋ = -1 := by
      rw [Int.floor_eq_iff]
      constructor
      · push_cast; linarith
      · push_cast; linarith
    rw [hf]
    push_cast
    split_ifs <;> first | rfl | omega | linarith

theorem pyRoundInt_le (y : ℚ) : ⌊y⌋ ≤ pyRoundInt y := by
  unfold pyRoundInt
  split_ifs <;> omega

theorem le_pyRoundInt (y : ℚ) : pyRoundInt y ≤ ⌊y⌋ + 1 := by
  unfold pyRoundInt
  split_ifs <;> omega

theorem pyRoundInt_mono {a b : ℚ} (h : a ≤ b) : pyRoundInt a ≤ pyRoundInt b := by
  have hf : ⌊a⌋ ≤ ⌊b⌋ := Int.floor_le_floor h
  rcases lt_or_eq_of_le hf with hlt | heq
  · calc pyRoundInt a ≤ ⌊a⌋ + 1 := le_pyRoundInt a
      _ ≤ ⌊b⌋ := by omega
      _ ≤ pyRoundInt b := pyRoundInt_le b
  · unfold pyRoundInt
    rw [← heq]
    split_ifs <;> first | omega | (exfalso; linarith)

theorem abs_pyRoundInt_sub (y : ℚ) : |(pyRoundInt y : ℚ) - y| ≤ 1/2 := by
  have h1 : ((⌊y⌋ : ℤ) : ℚ) ≤ y := Int.floor_le y
  have h2 : y < (⌊y⌋ : ℚ) + 1 := Int.lt_floor_add_one y
  unfold pyRoundInt
  split_ifs <;> rw [abs_le] <;> constructor <;> push_cast <;> linarith

theorem pyRound_mono (n : ℕ) {a b : ℚ} (h : a ≤ b) :
    pyRound n a ≤ pyRound n b := by
  unfold pyRound
  have h10 : (0:ℚ) < 10 ^ n := by positivity
  have hm : a * 10 ^ n ≤ b * 10 ^ n := mul_le_mul_of_nonneg_right h (le_of_lt h10)
  have := pyRoundInt_mono hm
  exact div_le_div_of_nonneg_right (by exact_mod_cast this) h10.le

theorem pyRound_zero (n : ℕ) : pyRound n 0 = 0 := by
  unfold pyRound
  rw [zero_mul]
  have h0 : pyRoundInt ((0 : ℤ) : ℚ) = 0 := pyRoundInt_intCast 0
  simp only [Int.cast_zero] at h0
  rw [h0]
  simp

theorem pyRound_nonneg (n : ℕ) {x : ℚ} (h : 0 ≤ x) : 0 ≤ pyRound n x := by
  have := pyRound_mono n h
  rwa [pyRound_zero] at this

theorem pyRound_eq_self {n : ℕ} {x : ℚ} {m : ℤ} (h : x * 10 ^ n = (m : ℚ)) :
    pyRound n x = x := by
  unfold pyRound
  rw [h, pyRoundInt_intCast]
  rw [div_eq_iff (by positivity : ((10:ℚ) ^ n) ≠ 0)]
  exact h.symm

theorem pyRound_eq_zero {n : ℕ} {x : ℚ} (h1 : -(1/2) < x * 10 ^ n)
    (h2 : x * 10 ^ n < 1/2) : pyRound n x = 0 := by
  unfold pyRound
  rw [pyRoundInt_eq_zero h1 h2]
  simp

theorem abs_pyRound_two_sub (x : ℚ) : |pyRound 2 x - x| ≤ 1/100 := by
  have h := abs_pyRoundInt_sub (x * 10 ^ 2)
  unfold pyRound
  have key : (pyRoundInt (x * 10 ^ 2) : ℚ) / 10 ^ 2 - x
      = ((pyRoundInt (x * 10 ^ 2) : ℚ) - x * 10 ^ 2) / 10 ^ 2 := by ring
  rw [key, abs_div]
  have hd : |(10:ℚ) ^ 2| = 100 := by norm_num
  rw [hd, div_le_iff₀ (by norm_num : (0:ℚ) < 100)]
  linarith

/-! ### The crediting pipeline (src/app.py, calculate_credited_return) -/

/-- Step 2 of the pipeline: deduct spread_rate from the index return when it
is present and positive. -/
def spreadStep (ir : ℚ) (spread_rate : Option ℚ) : ℚ :=
  match spread_rate with
  | some s => if 0 < s then ir - s else ir
  | none => ir

/-- Step 3 of the pipeline: scale by par_rate / 100 when par_rate is present
and positive. -/
def parStep (credited : ℚ) (par_rate : Option ℚ) : ℚ :=
  match par_rate with
  | some p => if 0 < p then credited * (p / 100) else credited
  | none => credited

/-- Step 4 of the pipeline: cap at cap_rate when it is present and positive. -/
def capStep (credited : ℚ) (cap_rate : Option ℚ) : ℚ :=
  match cap_rate with
  | some c => if 0 < c then min credited c else credited
  | none => credited

/-- calculate_credited_return from src/app.py.  The source's early return
«if credited <= 0: return 0.0» sits inside the spread branch; hoisting it
after spreadStep is equivalent because without an applied spread the credited
value is still index_return, which the earlier guard made positive. -/
def calculate_credited_return (index_return cap_rate par_rate spread_rate : Option ℚ) : ℚ :=
  match index_return with
  | none => 0
  | some ir =>
    if ir ≤ 0 then 0
    else
      let credited := spreadStep ir spread_rate
      if credited ≤ 0 then 0
      else max (pyRound 4 (capStep (parStep credited par_rate) cap_rate)) 0

/-- The pre-cap credited value: index_return after the initial guard, spread
deduction and participation scaling, i.e. the value the cap is compared
against (steps 1-3 of calculate_credited_return, cap and rounding omitted). -/
def preCapCredited (ir : ℚ) (par_rate spread_rate : Option ℚ) : ℚ :=
  if ir ≤ 0 then 0
  else
    let credited := spreadStep ir spread_rate
    if credited ≤ 0 then 0
    else parStep credited par_rate

theorem credited_return_eq_of_pos {ir : ℚ} {par_rate spread_rate : Option ℚ}
    (h : 0 < preCapCredited ir par_rate spread_rate) (cap_rate : Option ℚ) :
    calculate_credited_return (some ir) cap_rate par_rate spread_rate
      = max (pyRound 4 (capStep (preCapCredited ir par_rate spread_rate) cap_rate)) 0 := by
  unfold preCapCredited at h ⊢
  unfold calculate_credited_return
  by_cases hir : ir ≤ 0
  · simp [hir] at h
  · by_cases hc : spreadStep ir spread_rate ≤ 0
    · simp [hir, hc] at h
    · simp [hir, hc]

/-! ### Allocations and account aggregation (src/app.py, calculate_account_value) -/

/-- One allocation line of the request payload.  Optional numeric fields model
dict keys that may be absent (alloc.get returns None). -/
structure Allocation where
  name : String
  allocation_pct : Option ℚ
  is_fixed : Bool
  fixed_rate : Option ℚ
  index_return : Option ℚ
  cap_rate : Option ℚ
  par_rate : Option ℚ
  spread_rate : Option ℚ
deriving DecidableEq

/-- One entry of the results list built by calculate_account_value. -/
structure AllocationResult where
  name : String
  allocation_pct : ℚ
  alloc_amount : ℚ
  index_return : Option ℚ
  credited_return : ℚ
  new_amount : ℚ
  cap_rate : Option ℚ
  par_rate : Option ℚ
  spread_rate : Option ℚ
  fixed_rate : Option ℚ
  is_fixed : Bool
deriving DecidableEq

/-- alloc_amount = current_value * (pct / 100), with pct defaulting to 0
(alloc.get with default 0). -/
def allocAmountOf (current_value : ℚ) (alloc : Allocation) : ℚ :=
  current_value * (alloc.allocation_pct.getD 0 / 100)

/-- The credited value of one allocation: fixed allocations bypass the
pipeline and use «fixed_rate or 0.0»; indexed allocations run
calculate_credited_return, with a missing index_return defaulting to 0
(alloc.get with default 0.0 in the source). -/
def creditedOf (alloc : Allocation) : ℚ :=
  if alloc.is_fixed then pyOr alloc.fixed_rate 0
  else
    calculate_credited_return (some (alloc.index_return.getD 0))
      alloc.cap_rate alloc.par_rate alloc.spread_rate

/-- The un-rounded new amount of one allocation:
new_amount = alloc_amount * (1 + credited / 100). -/
def newAmountOf (current_value : ℚ) (alloc : Allocation) : ℚ :=
  allocAmountOf current_value alloc * (1 + creditedOf alloc / 100)

/-- The result record appended for one allocation, with the source's
rounding: money to 2 decimals, percentages to 4. -/
def resultOf (current_value : ℚ) (alloc : Allocation) : AllocationResult :=
  { name := alloc.name
    allocation_pct := alloc.allocation_pct.getD 0
    alloc_amount := pyRound 2 (allocAmountOf current_value alloc)
    index_return := if alloc.is_fixed then none else alloc.index_return
    credited_return := pyRound 4 (creditedOf alloc)
    new_amount := pyRound 2 (newAmountOf current_value alloc)
    cap_rate := alloc.cap_rate
    par_rate := alloc.par_rate
    spread_rate := alloc.spread_rate
    fixed_rate := alloc.fixed_rate
    is_fixed := alloc.is_fixed }

/-- The loop body of calculate_account_value: add the un-rounded new_amount
to the running total and append the result record. -/
def accountStep (current_value : ℚ) (acc : ℚ × List AllocationResult)
    (alloc : Allocation) : ℚ × List AllocationResult :=
  (acc.1 + newAmountOf current_value alloc, acc.2 ++ [resultOf current_value alloc])

/-- calculate_account_value from src/app.py: left-to-right loop over the
allocations, total rounded to 2 decimals only at the end. -/
def calculate_account_value (current_value : ℚ) (allocations : List Allocation) :
    ℚ × List AllocationResult :=
  let r := allocations.foldl (accountStep current_value) (0, [])
  (pyRound 2 r.1, r.2)

theorem foldl_accountStep (current_value : ℚ) (allocations : List Allocation)
    (t : ℚ) (rs : List AllocationResult) :
    allocations.foldl (accountStep current_value) (t, rs)
      = (t + (allocations.map (newAmountOf current_value)).sum,
         rs ++ allocations.map (resultOf current_value)) := by
  induction allocations generalizing t rs with
  | nil => simp
  | cons a l ih =>
    simp only [List.foldl_cons, List.map_cons, List.sum_cons, accountStep, ih]
    rw [Prod.mk.injEq]
    exact ⟨by ring, by simp⟩

theorem account_value_eq (current_value : ℚ) (allocations : List Allocation) :
    calculate_account_value current_value allocations
      = (pyRound 2 ((allocations.map (newAmountOf current_value)).sum),
         allocations.map (resultOf current_value)) := by
  unfold calculate_account_value
  rw [foldl_accountStep]
  simp

/-! ### The calculate endpoint (src/app.py, api_calculate) -/

/-- Responses of the calculate endpoint: a 400 error or the JSON payload. -/
inductive CalcResponse where
  | badRequest (error : String)
  | ok (current_value new_value total_return_pct : ℚ)
      (allocations : List AllocationResult)
deriving DecidableEq

/-- api_calculate from src/app.py: reject current_value <= 0 with a 400,
otherwise run calculate_account_value and report
total_return_pct = (new_value - current_value) / current_value * 100
rounded to 4 decimals. -/
def api_calculate (current_value : ℚ) (allocations : List Allocation) : CalcResponse :=
  if current_value ≤ 0 then .badRequest "Current value must be > 0"
  else
    let r := calculate_account_value current_value allocations
    .ok current_value r.1
      (pyRound 4 ((r.1 - current_value) / current_value * 100)) r.2

/-! ### The index return fetcher (src/app.py, fetch_index_return) -/

/-- One row of a price-history response from the market-data provider. -/
structure PriceRow where
  date : String
  close : ℚ
deriving DecidableEq

/-- The quote returned on success by fetch_index_return. -/
structure IndexReturnQuote where
  ticker : String
  start_date : String
  start_price : ℚ
  end_date : String
  end_price : ℚ
  index_return : ℚ
deriving DecidableEq

/-- fetch_index_return from src/app.py, with the external market-data
provider abstracted as inputs: hist_start is the response of the start-date
window query history(start_date - 10 days, start_date + 1 day) and hist_end
the response of the recent-data query history(period 5d).  The source takes
the last row of each response (iloc of -1), checking emptiness of hist_start
first. -/
def fetch_index_return (ticker : String) (hist_start hist_end : List PriceRow) :
    Except String IndexReturnQuote :=
  match hist_start.getLast? with
  | none => .error "No market data available for the start date"
  | some rowStart =>
    match hist_end.getLast? with
    | none => .error "No recent market data available"
    | some rowEnd =>
      .ok { ticker := ticker
            start_date := rowStart.date
            start_price := pyRound 2 rowStart.close
            end_date := rowEnd.date
            end_price := pyRound 2 rowEnd.close
            index_return :=
              pyRound 4 ((rowEnd.close - rowStart.close) / rowStart.close * 100) }

/-! ### Claim theorems -/

theorem credited_return_nonneg (index_return cap_rate par_rate spread_rate : Option ℚ) :
    0 ≤ calculate_credited_return index_return cap_rate par_rate spread_rate := by
  unfold calculate_credited_return
  cases index_return with
  | none => exact le_rfl
  | some ir =>
    dsimp only
    split_ifs <;> first | exact le_rfl | exact le_max_right _ _

/-- C4: if index_return is absent or at most 0, calculate_credited_return
returns exactly 0, whatever cap_rate, par_rate and spread_rate are. -/
theorem nonpositive_return_floor (index_return cap_rate par_rate spread_rate : Option ℚ)
    (h : ∀ v ∈ index_return, v ≤ 0) :
    calculate_credited_return index_return cap_rate par_rate spread_rate = 0 := by
  unfold calculate_credited_return
  cases index_return with
  | none => rfl
  | some v => simp [h v (by simp)]

/-- Witness for C4 at index_return = -5 with all three rates present. -/
theorem nonpositive_return_floor_witness :
    calculate_credited_return (some (-5)) (some 6) (some 100) (some 1) = 0 :=
  nonpositive_return_floor (some (-5)) (some 6) (some 100) (some 1) (by norm_num)

/-- C3: whenever spread_rate is at least index_return the credited return is
exactly 0 (never negative), for every cap_rate and par_rate. -/
theorem spread_exhaustion (ir s : ℚ) (cap_rate par_rate : Option ℚ) (h : ir ≤ s) :
    calculate_credited_return (some ir) cap_rate par_rate (some s) = 0 := by
  unfold calculate_credited_return
  by_cases hir : ir ≤ 0
  · simp [hir]
  · have hs : 0 < s := lt_of_lt_of_le (not_le.mp hir) h
    have h2 : spreadStep ir (some s) ≤ 0 := by
      simp only [spreadStep, if_pos hs]
      linarith
    simp [hir, h2]

/-- Witness for C3 at the spec scenario index_return = 3, spread_rate = 4. -/
theorem spread_exhaustion_witness :
    calculate_credited_return (some 3) none none (some 4) = 0 :=
  spread_exhaustion 3 4 none none (by norm_num)

/-- C1 as stated is false: with index_return = 1 and cap_rate = 1/100000 the
pre-cap credited value (1) exceeds the positive cap_rate, yet the function
returns 0, not cap_rate, because the final rounding to 4 decimals sends
1/100000 to 0. -/
theorem cap_dominance_counterexample :
    (0:ℚ) < 1/100000
    ∧ (1/100000 : ℚ) < preCapCredited 1 none none
    ∧ calculate_credited_return (some 1) (some (1/100000)) none none = 0
    ∧ (0:ℚ) ≠ 1/100000 := by
  have hmin : min (1:ℚ) (1/100000) = 1/100000 := min_eq_right (by norm_num)
  have hr : pyRound 4 ((1:ℚ)/100000) = 0 := pyRound_eq_zero (by norm_num) (by norm_num)
  refine ⟨by norm_num, ?_, ?_, by norm_num⟩
  · simp only [preCapCredited, spreadStep, parStep]
    norm_num
  · simp only [calculate_credited_return, spreadStep, parStep, capStep]
    norm_num [hmin, hr]

/-- C1 (amended): when the pre-cap credited value exceeds a positive
cap_rate, the result is exactly pyRound 4 cap_rate, which equals cap_rate
whenever cap_rate is an integer multiple of 1/10^4. -/
theorem cap_dominance_rounded (ir cap : ℚ) (par_rate spread_rate : Option ℚ) (m : ℤ)
    (hcap : 0 < cap) (hpre : cap < preCapCredited ir par_rate spread_rate) :
    calculate_credited_return (some ir) (some cap) par_rate spread_rate = pyRound 4 cap
    ∧ (cap = (m : ℚ) / 10 ^ 4 →
        calculate_credited_return (some ir) (some cap) par_rate spread_rate = cap) := by
  have hpos : 0 < preCapCredited ir par_rate spread_rate := lt_trans hcap hpre
  have h1 := credited_return_eq_of_pos hpos (some cap)
  have hcapstep : capStep (preCapCredited ir par_rate spread_rate) (some cap) = cap := by
    simp only [capStep, if_pos hcap]
    exact min_eq_right hpre.le
  rw [h1, hcapstep]
  have hnn : 0 ≤ pyRound 4 cap := pyRound_nonneg 4 hcap.le
  constructor
  · exact max_eq_left hnn
  · intro hm
    rw [max_eq_left hnn, hm]
    exact pyRound_eq_self (show ((m:ℚ) / 10 ^ 4) * 10 ^ 4 = ((m : ℤ) : ℚ) by field_simp)

/-- Witness for C1 (amended) at the spec scenario: index_return = 8.5,
cap_rate = 6, par_rate = 100, spread_rate = 0 gives exactly 6. -/
theorem cap_dominance_rounded_witness :
    calculate_credited_return (some (17/2)) (some 6) (some 100) (some 0) = 6 :=
  (cap_dominance_rounded (17/2) 6 (some 100) (some 0) 60000 (by norm_num)
    (by simp only [preCapCredited, spreadStep, parStep]; norm_num)).2 (by norm_num)

/-- C2 as stated is false: with index_return = 10 and no spread, par_rate 0
yields 10 (a par_rate of 0 is falsy, so the participation step is skipped and
full participation applies) while the larger par_rate 50 yields 5, so the
credited return decreases as par_rate grows from 0 to 50. -/
theorem par_monotonicity_counterexample :
    (0:ℚ) ≤ 50
    ∧ calculate_credited_return (some 10) none (some 0) none = 10
    ∧ calculate_credited_return (some 10) none (some 50) none = 5
    ∧ ¬ (calculate_credited_return (some 10) none (some 0) none
          ≤ calculate_credited_return (some 10) none (some 50) none) := by
  have h10 : pyRound 4 (10:ℚ) = 10 :=
    pyRound_eq_self (show (10:ℚ) * 10 ^ 4 = ((100000 : ℤ) : ℚ) by norm_num)
  have h5 : pyRound 4 (5:ℚ) = 5 :=
    pyRound_eq_self (show (5:ℚ) * 10 ^ 4 = ((50000 : ℤ) : ℚ) by norm_num)
  have e0 : calculate_credited_return (some 10) none (some 0) none = 10 := by
    simp only [calculate_credited_return, spreadStep, parStep, capStep]
    norm_num [h10]
  have e50 : calculate_credited_return (some 10) none (some 50) none = 5 := by
    simp only [calculate_credited_return, spreadStep, parStep, capStep]
    norm_num [h5]
  refine ⟨by norm_num, e0, e50, ?_⟩
  rw [e0, e50]
  norm_num

/-- C2 (amended): with index_return above any applied spread and both
par_rates positive, calculate_credited_return is monotone in par_rate, the
capped results compared. -/
theorem par_monotonicity_pos (ir : ℚ) (cap_rate spread_rate : Option ℚ) (p1 p2 : ℚ)
    (hs : ∀ s ∈ spread_rate, s < ir) (hp1 : 0 < p1) (hp12 : p1 ≤ p2) :
    calculate_credited_return (some ir) cap_rate (some p1) spread_rate
      ≤ calculate_credited_return (some ir) cap_rate (some p2) spread_rate := by
  unfold calculate_credited_return
  by_cases hir : ir ≤ 0
  · simp [hir]
  · have hcred : 0 < spreadStep ir spread_rate := by
      cases spread_rate with
      | none => simpa [spreadStep] using not_le.mp hir
      | some s =>
        have hlt := hs s (by simp)
        simp only [spreadStep]
        split_ifs with h0
        · linarith
        · linarith
    have hnc : ¬ spreadStep ir spread_rate ≤ 0 := not_le.mpr hcred
    simp only [hir, hnc, if_false]
    apply max_le_max _ le_rfl
    apply pyRound_mono
    have hpar : parStep (spreadStep ir spread_rate) (some p1)
        ≤ parStep (spreadStep ir spread_rate) (some p2) := by
      simp only [parStep, if_pos hp1, if_pos (lt_of_lt_of_le hp1 hp12)]
      apply mul_le_mul_of_nonneg_left _ hcred.le
      apply div_le_div_of_nonneg_right hp12 (by norm_num)
    cases cap_rate with
    | none => exact hpar
    | some k =>
      simp only [capStep]
      split_ifs
      · exact min_le_min hpar le_rfl
      · exact hpar

/-- Witness for C2 (amended) at index_return = 10, par_rates 50 and 75. -/
theorem par_monotonicity_pos_witness :
    calculate_credited_return (some 10) none (some 50) none
      ≤ calculate_credited_return (some 10) none (some 75) none :=
  par_monotonicity_pos 10 none none 50 75 (by intro s hs; simp at hs)
    (by norm_num) (by norm_num)

/-- C5: calculate_account_value emits exactly one result per allocation, in
input order; each un-rounded new amount is alloc_amount * (1 + credited/100);
the returned new_value is the sum of the un-rounded new amounts rounded to 2
decimals only at the end, hence within 1/100 of that sum. -/
theorem account_aggregation (current_value : ℚ) (allocations : List Allocation) (i : ℕ) :
    (calculate_account_value current_value allocations).2.length = allocations.length
    ∧ (calculate_account_value current_value allocations).2[i]?
        = (allocations[i]?).map (resultOf current_value)
    ∧ allocations.map (newAmountOf current_value)
        = allocations.map (fun a => allocAmountOf current_value a * (1 + creditedOf a / 100))
    ∧ (calculate_account_value current_value allocations).1
        = pyRound 2 ((allocations.map (newAmountOf current_value)).sum)
    ∧ |(calculate_account_value current_value allocations).1
        - (allocations.map (newAmountOf current_value)).sum| ≤ 1/100 := by
  rw [account_value_eq]
  refine ⟨by simp, by simp, rfl, rfl, abs_pyRound_two_sub _⟩

/-- C6: calculate_credited_return never returns a negative value, and the
credited_return recorded for every non-fixed allocation processed by
calculate_account_value is nonnegative. -/
theorem nonneg_invariant (index_return cap_rate par_rate spread_rate : Option ℚ)
    (current_value : ℚ) (allocations : List Allocation) (r : AllocationResult)
    (hr : r ∈ (calculate_account_value current_value allocations).2)
    (hfix : r.is_fixed = false) :
    0 ≤ calculate_credited_return index_return cap_rate par_rate spread_rate
    ∧ 0 ≤ r.credited_return := by
  refine ⟨credited_return_nonneg _ _ _ _, ?_⟩
  rw [account_value_eq] at hr
  simp only [List.mem_map] at hr
  obtain ⟨a, _, rfl⟩ := hr
  have ha : a.is_fixed = false := hfix
  have : creditedOf a = calculate_credited_return (some (a.index_return.getD 0))
      a.cap_rate a.par_rate a.spread_rate := by
    simp [creditedOf, ha]
  show 0 ≤ pyRound 4 (creditedOf a)
  rw [this]
  exact pyRound_nonneg 4 (credited_return_nonneg _ _ _ _)

/-- An indexed allocation used by concrete witnesses: 100% weight on an index
with return 8.5, cap 6, par 100, spread 0 (the spec scenario). -/
def demoAlloc : Allocation :=
  { name := "S and P 500"
    allocation_pct := some 100
    is_fixed := false
    fixed_rate := none
    index_return := some (17/2)
    cap_rate := some 6
    par_rate := some 100
    spread_rate := some 0 }

/-- Witness for C6 on the demo indexed allocation. -/
theorem nonneg_invariant_witness :
    0 ≤ calculate_credited_return (some (17/2)) (some 6) (some 100) (some 0)
    ∧ 0 ≤ (resultOf 100000 demoAlloc).credited_return :=
  nonneg_invariant (some (17/2)) (some 6) (some 100) (some 0) 100000 [demoAlloc]
    (resultOf 100000 demoAlloc)
    (by rw [account_value_eq]; simp)
    (by rfl)

/-- The fixed allocation of the spec scenario: is_fixed, fixed_rate 2.5,
weight 50. -/
def fixedDemoAlloc : Allocation :=
  { name := "Fixed Interest"
    allocation_pct := some 50
    is_fixed := true
    fixed_rate := some (5/2)
    index_return := none
    cap_rate := none
    par_rate := none
    spread_rate := none }

/-- C7: a fixed allocation bypasses the crediting pipeline, its credited
value being «fixed_rate or 0.0»; on the spec scenario (fixed_rate 2.5,
weight 50, current_value 50000) the result carries alloc_amount 25000,
credited_return 2.5 and new_amount 25625. -/
theorem fixed_bypass (current_value : ℚ) (alloc : Allocation)
    (h : alloc.is_fixed = true) :
    creditedOf alloc = pyOr alloc.fixed_rate 0
    ∧ (alloc.fixed_rate = none → creditedOf alloc = 0)
    ∧ (resultOf 50000 fixedDemoAlloc).alloc_amount = 25000
    ∧ (resultOf 50000 fixedDemoAlloc).credited_return = 5/2
    ∧ (resultOf 50000 fixedDemoAlloc).new_amount = 25625 := by
  have e1 : allocAmountOf 50000 fixedDemoAlloc = 25000 := by
    norm_num [allocAmountOf, fixedDemoAlloc]
  have e2 : creditedOf fixedDemoAlloc = 5/2 := by
    norm_num [creditedOf, fixedDemoAlloc, pyOr]
  have e3 : newAmountOf 50000 fixedDemoAlloc = 25625 := by
    rw [newAmountOf, e1, e2]; norm_num
  refine ⟨by simp [creditedOf, h], ?_, ?_, ?_, ?_⟩
  · intro hn; simp [creditedOf, h, hn, pyOr]
  · show pyRound 2 (allocAmountOf 50000 fixedDemoAlloc) = 25000
    rw [e1]
    exact pyRound_eq_self (show (25000:ℚ) * 10 ^ 2 = ((2500000 : ℤ) : ℚ) by norm_num)
  · show pyRound 4 (creditedOf fixedDemoAlloc) = 5/2
    rw [e2]
    exact pyRound_eq_self (show (5/2:ℚ) * 10 ^ 4 = ((25000 : ℤ) : ℚ) by norm_num)
  · show pyRound 2 (newAmountOf 50000 fixedDemoAlloc) = 25625
    rw [e3]
    exact pyRound_eq_self (show (25625:ℚ) * 10 ^ 2 = ((2562500 : ℤ) : ℚ) by norm_num)

/-- Witness for C7 at the fixed demo allocation itself. -/
theorem fixed_bypass_witness :
    creditedOf fixedDemoAlloc = pyOr fixedDemoAlloc.fixed_rate 0
    ∧ (fixedDemoAlloc.fixed_rate = none → creditedOf fixedDemoAlloc = 0)
    ∧ (resultOf 50000 fixedDemoAlloc).alloc_amount = 25000
    ∧ (resultOf 50000 fixedDemoAlloc).credited_return = 5/2
    ∧ (resultOf 50000 fixedDemoAlloc).new_amount = 25625 :=
  fixed_bypass 50000 fixedDemoAlloc (by rfl)

/-- C8: the calculate endpoint returns the 400 error exactly on
current_value <= 0, and otherwise the payload built from
calculate_account_value, with total_return_pct equal to
(new_value - current_value) / current_value * 100 rounded to 4 decimals. -/
theorem calculate_endpoint_contract (current_value : ℚ) (allocations : List Allocation) :
    (current_value ≤ 0 → api_calculate current_value allocations
        = CalcResponse.badRequest "Current value must be > 0")
    ∧ (0 < current_value → api_calculate current_value allocations
        = CalcResponse.ok current_value
            (calculate_account_value current_value allocations).1
            (pyRound 4 (((calculate_account_value current_value allocations).1
                - current_value) / current_value * 100))
            (calculate_account_value current_value allocations).2) := by
  constructor
  · intro h
    simp [api_calculate, h]
  · intro h
    simp [api_calculate, not_le.mpr h]

theorem demoAlloc_credited : creditedOf demoAlloc = 6 := by
  have h6 : pyRound 4 (6:ℚ) = 6 :=
    pyRound_eq_self (show (6:ℚ) * 10 ^ 4 = ((60000 : ℤ) : ℚ) by norm_num)
  have hmin : min ((17:ℚ)/2 * (100/100)) 6 = 6 := min_eq_right (by norm_num)
  simp only [creditedOf, demoAlloc, calculate_credited_return, spreadStep, parStep, capStep]
  norm_num [hmin, h6]

theorem demoAlloc_newAmount : newAmountOf 100000 demoAlloc = 106000 := by
  have ha : allocAmountOf 100000 demoAlloc = 100000 := by
    norm_num [allocAmountOf, demoAlloc]
  rw [newAmountOf, ha, demoAlloc_credited]
  norm_num

/-- Witness for C8 at the spec scenario: current_value 100000 and the demo
allocation give new_value 106000 and total_return_pct 6. -/
theorem calculate_endpoint_contract_witness :
    api_calculate 100000 [demoAlloc]
      = CalcResponse.ok 100000 106000 6 [resultOf 100000 demoAlloc] := by
  have h2 := (calculate_endpoint_contract 100000 [demoAlloc]).2 (by norm_num)
  rw [h2, account_value_eq]
  have hsum : ([demoAlloc].map (newAmountOf 100000)).sum = 106000 := by
    simp [demoAlloc_newAmount]
  rw [hsum]
  have hnv : pyRound 2 (106000 : ℚ) = 106000 :=
    pyRound_eq_self (show (106000:ℚ) * 10 ^ 2 = ((10600000 : ℤ) : ℚ) by norm_num)
  rw [hnv]
  have harg : ((106000 : ℚ) - 100000) / 100000 * 100 = 6 := by norm_num
  rw [harg]
  have h6 : pyRound 4 (6:ℚ) = 6 :=
    pyRound_eq_self (show (6:ℚ) * 10 ^ 4 = ((60000 : ℤ) : ℚ) by norm_num)
  rw [h6]
  simp

/-- C9: fetch_index_return fails with the start-date NotFoundError exactly
when the start-date window query returned no rows, with the distinct
recent-data NotFoundError exactly when the recent-data query returned no
rows (the start-window check coming first), and on success returns the
percentage change of the two last closes, rounded to 4 decimals, the prices
rounded to 2. -/
theorem fetch_failure_discrimination (ticker : String)
    (hist_start hist_end pre1 pre2 : List PriceRow) (rowStart rowEnd : PriceRow) :
    (fetch_index_return ticker hist_start hist_end
        = Except.error "No market data available for the start date" ↔ hist_start = [])
    ∧ (hist_start ≠ [] →
        (fetch_index_return ticker hist_start hist_end
            = Except.error "No recent market data available" ↔ hist_end = []))
    ∧ fetch_index_return ticker (pre1 ++ [rowStart]) (pre2 ++ [rowEnd])
        = Except.ok { ticker := ticker
                      start_date := rowStart.date
                      start_price := pyRound 2 rowStart.close
                      end_date := rowEnd.date
                      end_price := pyRound 2 rowEnd.close
                      index_return := pyRound 4
                        ((rowEnd.close - rowStart.close) / rowStart.close * 100) } := by
  have hs1 : ("No recent market data available" : String)
      ≠ "No market data available for the start date" := by decide
  refine ⟨?_, ?_, ?_⟩
  · rcases List.eq_nil_or_concat hist_start with rfl | ⟨l1, a1, rfl⟩
    · simp [fetch_index_return]
    · rcases List.eq_nil_or_concat hist_end with rfl | ⟨l2, a2, rfl⟩
      · simp [fetch_index_return, List.getLast?_concat, hs1]
      · simp [fetch_index_return, List.getLast?_concat]
  · intro hne
    rcases List.eq_nil_or_concat hist_start with rfl | ⟨l1, a1, rfl⟩
    · exact absurd rfl hne
    · rcases List.eq_nil_or_concat hist_end with rfl | ⟨l2, a2, rfl⟩
      · simp [fetch_index_return, List.getLast?_concat]
      · simp [fetch_index_return, List.getLast?_concat]
  · simp [fetch_index_return, List.getLast?_concat]

/-- Witness for C9: one row in each window, closes 100 and 109, gives a
9 percent return quote. -/
theorem fetch_failure_discrimination_witness :
    fetch_index_return "GSPC" [⟨"2023-01-13", 100⟩] [⟨"2023-06-01", 109⟩]
      = Except.ok { ticker := "GSPC"
                    start_date := "2023-01-13"
                    start_price := 100
                    end_date := "2023-06-01"
                    end_price := 109
                    index_return := 9 } := by
  have h := (fetch_failure_discrimination "GSPC" [⟨"2023-01-13", 100⟩]
    [⟨"2023-06-01", 109⟩] [] [] ⟨"2023-01-13", 100⟩ ⟨"2023-06-01", 109⟩).2.2
  simp only [List.nil_append] at h
  rw [h]
  have e1 : pyRound 2 (100:ℚ) = 100 :=
    pyRound_eq_self (show (100:ℚ) * 10 ^ 2 = ((10000 : ℤ) : ℚ) by norm_num)
  have e2 : pyRound 2 (109:ℚ) = 109 :=
    pyRound_eq_self (show (109:ℚ) * 10 ^ 2 = ((10900 : ℤ) : ℚ) by norm_num)
  have e3 : pyRound 4 (((109:ℚ) - 100) / 100 * 100) = 9 := by
    have harg : ((109:ℚ) - 100) / 100 * 100 = 9 := by norm_num
    rw [harg]
    exact pyRound_eq_self (show (9:ℚ) * 10 ^ 4 = ((90000 : ℤ) : ℚ) by norm_num)
  simp only [e1, e2, e3]

/-- A fixed allocation with a tiny negative fixed rate, full weight. -/
def negFixedAlloc : Allocation :=
  { name := "Fixed Interest"
    allocation_pct := some 100
    is_fixed := true
    fixed_rate := some (-(1/100000))
    index_return := none
    cap_rate := none
    par_rate := none
    spread_rate := none }

/-- C10 as stated is false: for the fixed allocation with negative
fixed_rate -1/100000 and positive alloc_amount, the credited_return reported
by calculate_account_value is 0, not the negative fixed_rate, because the
report rounds it to 4 decimals. -/
theorem zero_floor_fixed_counterexample :
    negFixedAlloc.is_fixed = true
    ∧ negFixedAlloc.fixed_rate = some (-(1/100000))
    ∧ (-(1/100000) : ℚ) < 0
    ∧ (calculate_account_value 100000 [negFixedAlloc]).2.map
        (fun r => r.credited_return) = [0]
    ∧ (0:ℚ) ≠ -(1/100000)
    ∧ ¬ ((0:ℚ) < 0) := by
  have hcr : creditedOf negFixedAlloc = -(1/100000) := by
    norm_num [creditedOf, negFixedAlloc, pyOr]
  have hpy : pyRound 4 (-(1/100000) : ℚ) = 0 :=
    pyRound_eq_zero (by norm_num) (by norm_num)
  refine ⟨rfl, rfl, by norm_num, ?_, by norm_num, by norm_num⟩
  rw [account_value_eq]
  simp only [List.map_cons, List.map_nil]
  dsimp only [resultOf]
  rw [hcr, hpy]

/-- C10 (amended): for a fixed allocation with positive alloc_amount whose
fixed_rate is negative and an integer multiple of 1/10^4, the reported
credited_return is exactly the negative fixed_rate and the un-rounded new
amount is strictly below the un-rounded alloc_amount, so the account value
(before final rounding) decreases through such an allocation. -/
theorem fixed_negative_rate (current_value : ℚ) (alloc : Allocation) (fr : ℚ) (m : ℤ)
    (hfix : alloc.is_fixed = true) (hrate : alloc.fixed_rate = some fr)
    (hneg : fr < 0) (hm : fr = (m : ℚ) / 10 ^ 4)
    (hpos : 0 < allocAmountOf current_value alloc) :
    (resultOf current_value alloc).credited_return = fr
    ∧ (resultOf current_value alloc).credited_return < 0
    ∧ newAmountOf current_value alloc < allocAmountOf current_value alloc := by
  have hcr : creditedOf alloc = fr := by
    simp [creditedOf, hfix, hrate, pyOr, hneg.ne]
  have hpy : pyRound 4 fr = fr := by
    rw [hm]
    exact pyRound_eq_self (show ((m:ℚ) / 10 ^ 4) * 10 ^ 4 = ((m : ℤ) : ℚ) by field_simp)
  have hfield : (resultOf current_value alloc).credited_return = fr := by
    show pyRound 4 (creditedOf alloc) = fr
    rw [hcr, hpy]
  refine ⟨hfield, by rw [hfield]; exact hneg, ?_⟩
  rw [newAmountOf, hcr]
  have hfac : 1 + fr / 100 < 1 := by linarith
  exact mul_lt_of_lt_one_right hpos hfac

/-- A fixed allocation losing 2.5 percent, full weight. -/
def negDemoAlloc : Allocation :=
  { name := "Fixed Interest"
    allocation_pct := some 100
    is_fixed := true
    fixed_rate := some (-(5/2))
    index_return := none
    cap_rate := none
    par_rate := none
    spread_rate := none }

/-- Witness for C10 (amended): fixed_rate -2.5 on a 100000 account. -/
theorem fixed_negative_rate_witness :
    (resultOf 100000 negDemoAlloc).credited_return = -(5/2)
    ∧ (resultOf 100000 negDemoAlloc).credited_return < 0
    ∧ newAmountOf 100000 negDemoAlloc < allocAmountOf 100000 negDemoAlloc :=
  fixed_negative_rate 100000 negDemoAlloc (-(5/2)) (-25000) rfl rfl
    (by norm_num) (by norm_num) (by norm_num [allocAmountOf, negDemoAlloc])
